/-
Verification of the semantic transcript indexing and retrieval engine
(`backend/app/vector_store.py`) against its design specification.

The Python module is shallowly embedded below:
  * `chunk_transcript` — the chunker (`chunk_transcript` in the source),
    modelled on `List Char` with Python's `str.rfind(sub, start, end)` and
    `str.strip()` semantics replicated; the `while` loop is modelled with
    explicit fuel (`chunkLoop`), returning `none` when the fuel runs out,
    which lets non-termination of the source loop be stated and proved.
    The source loop's cursor stays non-negative on every input used in a
    theorem below, so `Nat` arithmetic is faithful there.
  * `store_meeting_embeddings` — the refresh operation.  The embedding
    provider (`SentenceTransformer`, an external package) is modelled as an
    `Option (String → List ℤ)`: `none` is the provider-unavailable path of
    `_get_embedding_model()`.  Any exception inside the `try` block
    (encode failure, connection failure, transaction abort) is modelled by
    the `txFail` flag: the source catches it, the transaction rolls back,
    and 0 is returned with the table unchanged.  The delete+insert runs
    through `runTransaction`, which models asyncpg/Postgres transactional
    semantics (external to the repository): all operations apply on commit,
    none on abort.
  * `search_context` — the search operation.  The pgvector `<=>` cosine
    distance operator is provided by the Postgres extension, not by this
    repository, so it is modelled as an explicit distance-function
    parameter `dist`; similarity is `1 - dist` exactly as in the SQL
    projection `1 - (e.embedding <=> $1) as similarity`.  `ORDER BY`
    carries no secondary sort key in the source, so ties are modelled by a
    stable sort over table/join order (`List.insertionSort`), and `LIMIT`
    by `List.take`.
-/
import Mathlib

/-! ## Chunker (`chunk_transcript`, vector_store.py lines 38-62) -/

/-- Python `str.strip()`: drop whitespace from both ends. -/
def trimChars (l : List Char) : List Char :=
  ((l.dropWhile Char.isWhitespace).reverse.dropWhile Char.isWhitespace).reverse

/-- Holds when `sep` occurs in `text` starting at index `i`. -/
def matchesAt (text sep : List Char) (i : Nat) : Bool :=
  decide (((text.drop i).take sep.length) = sep)

/-- Python `text.rfind(sep, b, e)` for `0 ≤ b`: the greatest index `i` with
`b ≤ i`, `i + sep.length ≤ min e text.length` and `sep` occurring at `i`;
`none` when there is no occurrence (Python returns `-1`). -/
def pyRfind (text sep : List Char) (b e : Nat) : Option Nat :=
  (((List.range (min e text.length + 1)).filter
    (fun i => b ≤ i && i + sep.length ≤ min e text.length && matchesAt text sep i))).getLast?

/-- One separator's candidate cut: accept `last_sep + 1` only when
`last_sep > start + chunk_size // 2` (source lines 51-54). -/
def acceptSep (text : List Char) (chunk_size b e : Nat) (sep : List Char) :
    Option Nat :=
  match pyRfind text sep b e with
  | some i => if b + chunk_size / 2 < i then some (i + 1) else none
  | none => none

/-- The `for sep in ['. ', '! ', '? ', '\n']` loop: first separator whose
last occurrence in the window passes the midpoint wins (source lines 50-54). -/
def sepCut (text : List Char) (chunk_size b e : Nat) : Option Nat :=
  [". ".toList, "! ".toList, "? ".toList, "\n".toList].findSome?
    (acceptSep text chunk_size b e)

/-- One iteration of the `while` loop body (source lines 46-60): returns the
next cursor position and the (trimmed) chunk carved in this iteration. -/
def chunkStep (text : List Char) (chunk_size overlap b : Nat) :
    Nat × List Char :=
  let e0 := b + chunk_size
  let e := if e0 < text.length then
             match sepCut text chunk_size b e0 with
             | some e1 => e1
             | none => e0
           else e0
  let c := trimChars ((text.drop b).take (e - b))
  (if e < text.length then e - overlap else text.length, c)

/-- The `while start < len(text)` loop with explicit fuel; `none` means the
fuel ran out (the source loop has no bound of its own). -/
def chunkLoop (text : List Char) (chunk_size overlap : Nat) :
    Nat → Nat → List (List Char) → Option (List (List Char))
  | 0, _, _ => none
  | fuel + 1, b, acc =>
    if b < text.length then
      let s := chunkStep text chunk_size overlap b
      chunkLoop text chunk_size overlap fuel s.1
        (if s.2 = [] then acc else acc ++ [s.2])
    else some acc

/-- `chunk_transcript(text, chunk_size=500, overlap=100)` (source lines
38-62).  `if not text or len(text) < chunk_size: return [text] if text
else []`; otherwise the chunking loop, run with `text.length + 1` fuel. -/
def chunk_transcript (text : String) (chunk_size : Nat := 500)
    (overlap : Nat := 100) : Option (List String) :=
  if text = "" then some []
  else if text.length < chunk_size then some [text]
  else
    (chunkLoop text.data chunk_size overlap (text.length + 1) 0 []).map
      (fun ls => ls.map String.mk)

/-! ## Storage model (`meeting_embeddings` and `meetings` tables) -/

/-- One row of the `meeting_embeddings` table (columns written by
`store_meeting_embeddings`, source lines 114-117). -/
structure ChunkRow where
  meeting_id : String
  chunk_index : Nat
  content : String
  embedding : List ℤ
deriving DecidableEq, Repr

/-- One row of the `meetings` table as consumed by the search JOIN
(source line 158): `id`, `title`, `created_at` (nullable timestamp,
kept abstract as its rendered ISO string). -/
structure Meeting where
  id : String
  title : String
  created_at : Option String
deriving DecidableEq, Repr

/-- The database state the engine touches: the `meeting_embeddings` table
in row (insertion) order, and the externally-owned `meetings` table. -/
structure VSState where
  embeddings : List ChunkRow
  meetings : List Meeting
deriving DecidableEq, Repr

/-- A primitive mutation issued inside the refresh transaction: the
`DELETE` of source line 103 or one `INSERT` of source lines 114-117. -/
inductive DbOp where
  | del (meeting_id : String)
  | ins (row : ChunkRow)
deriving DecidableEq, Repr

/-- Effect of one primitive operation on the `meeting_embeddings` table. -/
def applyOp (tbl : List ChunkRow) : DbOp → List ChunkRow
  | DbOp.del mid => tbl.filter (fun r => r.meeting_id ≠ mid)
  | DbOp.ins row => tbl ++ [row]

/-- The operation sequence of one refresh transaction (source lines
101-117): delete every row of the meeting, then insert the new records. -/
def refreshOps (meeting_id : String) (records : List ChunkRow) : List DbOp :=
  DbOp.del meeting_id :: records.map DbOp.ins

/-- Transactional execution.  Modelled from the spec: the
`async with conn.transaction()` block delegates atomicity to
asyncpg/Postgres, which are external to the repository — on commit every
operation applies, on an abort at any point the table is unchanged
(rollback). -/
def runTransaction (tbl : List ChunkRow) (ops : List DbOp) (commit : Bool) :
    List ChunkRow :=
  if commit then ops.foldl applyOp tbl else tbl

/-- The rows stored for one document, in table order. -/
def rowsFor (meeting_id : String) (tbl : List ChunkRow) : List ChunkRow :=
  tbl.filter (fun r => r.meeting_id = meeting_id)

/-! ## Refresh (`store_meeting_embeddings`, source lines 71-127) -/

/-- Builds `"\n".join([t.get('text','') for t in transcripts if t.get('text')])`
(source line 83), with each transcript entry modelled by its text field. -/
def fullTextOf (transcripts : List String) : String :=
  String.intercalate "\n" (transcripts.filter (fun t => t ≠ ""))

/-- The records built by `enumerate(zip(chunks, embeddings))` (source lines
106-111): chunk `i` gets `chunk_index = i` and the provider's vector. -/
def mkRecords (enc : String → List ℤ) (meeting_id : String)
    (chunks : List String) : List ChunkRow :=
  ((List.range chunks.length).zip chunks).map
    (fun p => ChunkRow.mk meeting_id p.1 p.2 (enc p.2))

/-- Refresh: `store_meeting_embeddings(meeting_id, ..., transcripts)` (source lines
71-127).  `model` is `none` on the provider-unavailable path (line 79);
`txFail = true` models any exception inside the `try` block (encode,
connection or transaction failure): the transaction rolls back and the
`except` handler returns 0 (lines 125-127).  The result is `none` only
when the chunking loop's fuel runs out (the source would not return). -/
def store_meeting_embeddings (model : Option (String → List ℤ))
    (txFail : Bool) (st : VSState) (meeting_id : String)
    (transcripts : List String) : Option (Nat × VSState) :=
  match model with
  | none => some (0, st)
  | some enc =>
    let full_text := fullTextOf transcripts
    if trimChars full_text.data = [] then some (0, st)
    else
      match chunk_transcript full_text 500 100 with
      | none => none
      | some chunks =>
        if chunks = [] then some (0, st)
        else
          let records := mkRecords enc meeting_id chunks
          some (if txFail then 0 else chunks.length,
            { st with
              embeddings :=
                runTransaction st.embeddings (refreshOps meeting_id records)
                  (!txFail) })

/-! ## Search (`search_context`, source lines 129-201) -/

/-- One formatted match (source lines 184-191). -/
structure SearchResult where
  text : String
  meeting_id : String
  meeting_title : String
  meeting_date : String
  similarity : ℤ
  chunk_index : Nat
deriving DecidableEq, Repr

/-- The join `FROM meeting_embeddings e JOIN meetings m ON e.meeting_id = m.id`
(source lines 157-158), enumerated in table order. -/
def joinedRows (st : VSState) : List (ChunkRow × Meeting) :=
  st.embeddings.flatMap
    (fun r => (st.meetings.filter (fun m => m.id = r.meeting_id)).map
      (fun m => (r, m)))

/-- The `WHERE e.meeting_id = ANY($2::text[])` filter, added only when
`allowed_meeting_ids` is truthy in Python (source line 167): `None` and the
empty list both skip the filter. -/
def searchPool (st : VSState) (allowed : Option (List String)) :
    List (ChunkRow × Meeting) :=
  match allowed with
  | none => joinedRows st
  | some [] => joinedRows st
  | some (a :: rest) =>
    (joinedRows st).filter (fun rm => (a :: rest).contains rm.1.meeting_id)

/-- The `ORDER BY e.embedding <=> $1` comparison: by distance to the query
vector, ascending.  The SQL has no secondary sort key, so ties keep
table/join order (stable sort). -/
def distLE (dist : List ℤ → List ℤ → ℤ) (qv : List ℤ)
    (a b : ChunkRow × Meeting) : Prop :=
  dist qv a.1.embedding ≤ dist qv b.1.embedding

instance distLE.decidableRel (dist : List ℤ → List ℤ → ℤ) (qv : List ℤ) :
    DecidableRel (distLE dist qv) :=
  fun a b => inferInstanceAs (Decidable (_ ≤ _))

instance distLE.isTotal (dist : List ℤ → List ℤ → ℤ) (qv : List ℤ) :
    IsTotal (ChunkRow × Meeting) (distLE dist qv) :=
  ⟨fun a b => le_total _ _⟩

instance distLE.isTrans (dist : List ℤ → List ℤ → ℤ) (qv : List ℤ) :
    IsTrans (ChunkRow × Meeting) (distLE dist qv) :=
  ⟨fun _ _ _ => le_trans⟩

/-- The `SELECT` projection and Python-side formatting of one result row
(source lines 149-156 and 184-191): `similarity` is
`1 - (e.embedding <=> $1)` and a NULL `created_at` renders as `""`. -/
def formatRow (dist : List ℤ → List ℤ → ℤ) (qv : List ℤ)
    (rm : ChunkRow × Meeting) : SearchResult :=
  { text := rm.1.content
    meeting_id := rm.1.meeting_id
    meeting_title := rm.2.title
    meeting_date := rm.2.created_at.getD ""
    similarity := 1 - dist qv rm.1.embedding
    chunk_index := rm.1.chunk_index }

/-- Search: `search_context(query, n_results, allowed_meeting_ids)` (source lines
129-201).  `model` is `none` on the provider-unavailable path (line 136);
`dist` models the external pgvector `<=>` cosine-distance operator;
similarity is `1 - dist` as in the SQL projection (line 156), `LIMIT` is
`take`, and the rows are formatted as at lines 184-191 (`meeting_date`
rendered `""` when NULL, line 188). -/
def search_context (model : Option (String → List ℤ))
    (dist : List ℤ → List ℤ → ℤ) (st : VSState) (query : String)
    (n_results : Nat) (allowed_meeting_ids : Option (List String)) :
    List SearchResult :=
  match model with
  | none => []
  | some enc =>
    ((List.insertionSort (distLE dist (enc query))
        (searchPool st allowed_meeting_ids)).take n_results).map
      (formatRow dist (enc query))

/-! ## Concrete instances used by witnesses and counterexamples -/

/-- A one-dimensional embedding provider: every text maps to `[1]`. -/
def enc1 : String → List ℤ := fun _ => [1]

/-- Dot product of integer vectors. -/
def dotInt : List ℤ → List ℤ → ℤ
  | a :: as, b :: bs => a * b + dotInt as bs
  | _, _ => 0

/-- Cosine distance restricted to unit vectors (`1 - a·b`): on unit-norm
inputs this is exactly pgvector's cosine distance, and it stays
kernel-computable. -/
def distDot (a b : List ℤ) : ℤ := 1 - dotInt a b

/-- The store state after refreshing `m1` with `"hello world"` under
`enc1`. -/
def stA : VSState :=
  { embeddings := [ChunkRow.mk "m1" 0 "hello world" [1]], meetings := [] }

/-- A store holding one chunk each for `m2` and `m1` (in that table order)
whose embeddings are identical unit vectors, so both are at distance 0 from
the query vector `[1]`. -/
def stTie : VSState :=
  { embeddings := [ChunkRow.mk "m2" 0 "x" [1], ChunkRow.mk "m1" 0 "y" [1]]
    meetings := [Meeting.mk "m1" "T1" none, Meeting.mk "m2" "T2" none] }

/-- A store where chunk 0 of `m1` has embedding `[1]` (identical to the
`enc1` query vector) and chunk 1 has the orthogonal embedding `[0]`. -/
def stHit : VSState :=
  { embeddings := [ChunkRow.mk "m1" 0 "p" [1], ChunkRow.mk "m1" 1 "r" [0]]
    meetings := [Meeting.mk "m1" "T1" none] }

/-- The last character of a chunk is a sentence-ending delimiter character
(the delimiters searched for by the chunker are `'. '`, `'! '`, `'? '` and
`'\n'`; after trimming the trailing space this leaves the final character). -/
def endsInDelim (s : String) : Bool :=
  match s.data.getLast? with
  | some c => [('.' : Char), '!', '?', '\n'].contains c
  | none => false

/-! ## Helper lemmas -/

lemma foldl_ins_eq_append (records t : List ChunkRow) :
    (records.map DbOp.ins).foldl applyOp t = t ++ records := by
  induction records generalizing t with
  | nil => simp
  | cons r rs ih => simp [applyOp, ih]

lemma runTransaction_commit (tbl : List ChunkRow) (mid : String)
    (records : List ChunkRow) :
    runTransaction tbl (refreshOps mid records) true
      = tbl.filter (fun r => r.meeting_id ≠ mid) ++ records := by
  simp [runTransaction, refreshOps, foldl_ins_eq_append, applyOp]

lemma rowsFor_append (mid : String) (a b : List ChunkRow) :
    rowsFor mid (a ++ b) = rowsFor mid a ++ rowsFor mid b := by
  simp [rowsFor]

lemma rowsFor_filter_ne (mid : String) (tbl : List ChunkRow) :
    rowsFor mid (tbl.filter (fun r => r.meeting_id ≠ mid)) = [] := by
  simp only [rowsFor, List.filter_filter]
  apply List.filter_eq_nil_iff.2
  intro r _
  by_cases h : r.meeting_id = mid <;> simp [h]

lemma rowsFor_mkRecords (enc : String → List ℤ) (mid : String)
    (chunks : List String) :
    rowsFor mid (mkRecords enc mid chunks) = mkRecords enc mid chunks := by
  apply List.filter_eq_self.2
  intro r hr
  simp only [mkRecords, List.mem_map] at hr
  obtain ⟨p, _, rfl⟩ := hr
  simp

lemma mkRecords_map_index (enc : String → List ℤ) (mid : String)
    (chunks : List String) :
    (mkRecords enc mid chunks).map ChunkRow.chunk_index
      = List.range chunks.length := by
  simp only [mkRecords, List.map_map]
  have : (ChunkRow.chunk_index ∘ fun p : Nat × String =>
      ChunkRow.mk mid p.1 p.2 (enc p.2)) = Prod.fst := rfl
  rw [this, List.map_fst_zip]
  simp [List.length_range]

lemma mkRecords_map_content (enc : String → List ℤ) (mid : String)
    (chunks : List String) :
    (mkRecords enc mid chunks).map ChunkRow.content = chunks := by
  simp only [mkRecords, List.map_map]
  have : (ChunkRow.content ∘ fun p : Nat × String =>
      ChunkRow.mk mid p.1 p.2 (enc p.2)) = Prod.snd := rfl
  rw [this, List.map_snd_zip]
  simp [List.length_range]

lemma mkRecords_length (enc : String → List ℤ) (mid : String)
    (chunks : List String) :
    (mkRecords enc mid chunks).length = chunks.length := by
  simp [mkRecords, List.length_zip, List.length_range]

/-- Anatomy of a successful refresh that wrote at least one chunk: it
committed, the chunk list came from `chunk_transcript` and the new table is
the old one with the meeting's rows replaced by the fresh records. -/
lemma store_success (enc : String → List ℤ) (txFail : Bool) (st : VSState)
    (mid : String) (ts : List String) (n : Nat) (st' : VSState)
    (h : store_meeting_embeddings (some enc) txFail st mid ts
      = some (n, st')) (hn : 0 < n) :
    txFail = false ∧
    ∃ chunks, chunk_transcript (fullTextOf ts) 500 100 = some chunks ∧
      chunks ≠ [] ∧ n = chunks.length ∧
      st'.embeddings
        = st.embeddings.filter (fun r => r.meeting_id ≠ mid)
            ++ mkRecords enc mid chunks ∧
      st'.meetings = st.meetings := by
  unfold store_meeting_embeddings at h
  by_cases h1 : trimChars (fullTextOf ts).data = []
  · simp [h1] at h
    omega
  · simp only [h1, if_false] at h
    cases hct : chunk_transcript (fullTextOf ts) 500 100 with
    | none => rw [hct] at h; exact absurd h (by simp)
    | some chunks =>
      rw [hct] at h
      by_cases h2 : chunks = []
      · simp [h2] at h
        omega
      · simp only [h2, if_false] at h
        cases txFail with
        | true => simp at h; omega
        | false =>
          simp only [Bool.not_false, Option.some.injEq, Prod.mk.injEq] at h
          obtain ⟨hn', hst⟩ := h
          refine ⟨rfl, chunks, rfl, h2, hn'.symm, ?_, ?_⟩
          · rw [← hst, runTransaction_commit]
          · rw [← hst]

/-- The chunking loop never terminates when one iteration maps cursor 0
back to cursor 0 on a non-empty text: every fuel budget is exhausted. -/
lemma chunkLoop_cycle_at_zero (text : List Char) (cs ov : Nat)
    (h0 : 0 < text.length) (hstep : (chunkStep text cs ov 0).1 = 0) :
    ∀ fuel acc, chunkLoop text cs ov fuel 0 acc = none := by
  intro fuel
  induction fuel with
  | zero => intro acc; rfl
  | succ k ih =>
    intro acc
    simp only [chunkLoop, if_pos h0]
    rw [hstep]
    exact ih _

/-! ## Claims -/

/-- C7.  The claim states that for text shorter than `target_size` the
single returned chunk is the whitespace-trimmed input (empty sequence when
trimming yields nothing).  The source (line 41) returns `[text]` untrimmed:
on the whitespace-only input `"   "` (non-empty, shorter than 500, trimming
to nothing) the code returns `["   "]`, not `[]`. -/
theorem chunk_short_text_untrimmed_cex :
    ("   " : String) ≠ "" ∧ ("   " : String).length < 500 ∧
    trimChars ("   " : String).data = [] ∧
    chunk_transcript "   " 500 100 = some ["   "] := by
  refine ⟨by decide, by decide, by decide, ?_⟩
  rfl

/-- C7 (amended).  For every text: if the text is empty, `chunk_transcript`
returns the empty sequence; if the text is non-empty with length below
`chunk_size`, it returns exactly one element equal to the raw (untrimmed)
input text — even when the input is whitespace-only. -/
theorem chunk_short_text (text : String) (chunk_size overlap : Nat) :
    (text = "" → chunk_transcript text chunk_size overlap = some []) ∧
    (text ≠ "" → text.length < chunk_size →
      chunk_transcript text chunk_size overlap = some [text]) := by
  constructor
  · intro h
    simp [chunk_transcript, h]
  · intro h1 h2
    simp [chunk_transcript, h1, h2]

/-- C7 witness: the two-character text `"ab"` is non-empty and shorter than
the default `chunk_size`, and chunks to exactly `["ab"]`. -/
theorem chunk_short_text_witness :
    ("ab" : String) ≠ "" ∧ ("ab" : String).length < 500 ∧
    chunk_transcript "ab" 500 100 = some ["ab"] :=
  ⟨by decide, by decide,
    (chunk_short_text "ab" 500 100).2 (by decide) (by decide)⟩

/-- C9.  The claim states that `chunk("A. B. C.", 4, 1)` splits only at
sentence boundaries and every chunk ends in a delimiter.  The code rejects
any delimiter at or before the window midpoint (line 52), and in this input
the delimiter of the first window falls at index 1 ≤ 2 = midpoint, so the
code hard-cuts mid-sentence: the first chunk is `"A. B"`, which does not
end in a delimiter. -/
theorem chunk_sentence_scenario_cex :
    chunk_transcript "A. B. C." 4 1 = some ["A. B", "B. C", "C."] ∧
    endsInDelim "A. B" = false := by
  exact ⟨rfl, rfl⟩

/-- C9 (amended).  `chunk_transcript "A. B. C." 4 1` produces at least two
chunks (three: `["A. B", "B. C", "C."]`), but the cuts are hard cuts
mid-sentence, because each window's sentence-ending delimiter falls at or
before the window midpoint and is therefore rejected; chunks need not end
in a delimiter. -/
theorem chunk_sentence_scenario :
    chunk_transcript "A. B. C." 4 1 = some ["A. B", "B. C", "C."] ∧
    2 ≤ (["A. B", "B. C", "C."] : List String).length := by
  exact ⟨rfl, by decide⟩

/-- C10.  An empty allow-list is treated exactly like the unrestricted
marker `None`: Python's `if allowed_meeting_ids:` (line 167) is false for
both, so no document filter is applied and the results coincide. -/
theorem search_empty_allow_list_unrestricted
    (model : Option (String → List ℤ)) (dist : List ℤ → List ℤ → ℤ)
    (st : VSState) (query : String) (n_results : Nat) :
    search_context model dist st query n_results (some [])
      = search_context model dist st query n_results none := by
  cases model <;> rfl

/-- C3.  The claim states that when the embedding provider is unavailable,
refresh and search fail with an explicit "provider unavailable" condition
distinguishable from a successful zero/empty result.  The code returns the
plain success values `0` (line 80) and `[]` (line 137) on that path: below,
the provider-unavailable outcomes are literally equal to genuine
empty-success outcomes (refresh of an empty input set, search of an empty
store), so no distinguishable error condition exists. -/
theorem provider_unavailable_silent_cex :
    store_meeting_embeddings none false stA "m1" ["goodbye"]
      = some (0, stA) ∧
    store_meeting_embeddings (some enc1) false stA "m1" [] = some (0, stA) ∧
    search_context none distDot stA "hello" 5 none = [] ∧
    search_context (some enc1) distDot ⟨[], []⟩ "hello" 5 none = [] := by
  exact ⟨rfl, rfl, rfl, rfl⟩

/-- C3 (amended).  When the embedding provider is unavailable, refresh
returns 0 with the store unchanged and search returns the empty list — the
same values as legitimate empty successes; the caller cannot distinguish
"provider unavailable" from "no matches" or "nothing written". -/
theorem provider_unavailable_silent (txFail : Bool) (st : VSState)
    (mid : String) (ts : List String) (dist : List ℤ → List ℤ → ℤ)
    (q : String) (n : Nat) (allowed : Option (List String)) :
    store_meeting_embeddings none txFail st mid ts = some (0, st) ∧
    search_context none dist st q n allowed = [] := by
  exact ⟨rfl, rfl⟩

/-- C1.  The claim states that refreshing `m1` with `"hello world"` and
then refreshing `m1` with an empty input set leaves zero chunks stored for
`m1`.  In the source an empty input set joins to empty text and hits the
early `return 0` (lines 85-87) *before* the transaction's `DELETE`, so the
prior chunk set is left in place: the second refresh returns 0 but `m1`
still holds its `"hello world"` chunk. -/
theorem refresh_empty_input_keeps_old_chunks_cex :
    store_meeting_embeddings (some enc1) false ⟨[], []⟩ "m1" ["hello world"]
      = some (1, stA) ∧
    store_meeting_embeddings (some enc1) false stA "m1" [] = some (0, stA) ∧
    rowsFor "m1" stA.embeddings = [ChunkRow.mk "m1" 0 "hello world" [1]] :=
  ⟨by decide, by decide, by decide⟩

/-- C1 (amended).  After a successful refresh that wrote `n > 0` chunks,
the stored chunk set for the document is exactly the chunk set derived from
the most recent input text — never a mix of old and new chunks.  But a
refresh whose input joins and trims to nothing returns 0 *without touching
storage*, so prior chunks for the document remain: refreshing `m1` with
`"hello world"` and then with an empty input set leaves one chunk, not
zero. -/
theorem refresh_replaces_wholesale (enc : String → List ℤ) (st : VSState)
    (mid : String) (ts : List String) (n : Nat) (st' : VSState)
    (h : store_meeting_embeddings (some enc) false st mid ts
      = some (n, st')) :
    (0 < n → ∃ chunks,
      chunk_transcript (fullTextOf ts) 500 100 = some chunks ∧
      rowsFor mid st'.embeddings = mkRecords enc mid chunks ∧
      n = chunks.length) ∧
    (trimChars (fullTextOf ts).data = [] → n = 0 ∧ st' = st) := by
  constructor
  · intro hn
    obtain ⟨-, chunks, hct, hne, hlen, hemb, -⟩ :=
      store_success enc false st mid ts n st' h hn
    refine ⟨chunks, hct, ?_, hlen⟩
    rw [hemb, rowsFor_append, rowsFor_filter_ne, rowsFor_mkRecords]
    simp
  · intro htrim
    unfold store_meeting_embeddings at h
    simp only [htrim, if_true, Option.some.injEq, Prod.mk.injEq] at h
    exact ⟨h.1.symm, h.2.symm⟩

/-- C1 witness: the successful refresh of `m1` with `"hello world"` stores
exactly the single derived chunk. -/
theorem refresh_replaces_wholesale_witness :
    ∃ chunks,
      chunk_transcript (fullTextOf ["hello world"]) 500 100 = some chunks ∧
      rowsFor "m1" stA.embeddings = mkRecords enc1 "m1" chunks ∧
      1 = chunks.length :=
  (refresh_replaces_wholesale enc1 ⟨[], []⟩ "m1" ["hello world"] 1 stA
    (by decide)).1 (by decide)

/-- C6.  The claim states that the chunker terminates for every input
satisfying `overlap < target_size`, and fails fast when
`target_size ≤ overlap`.  The code does neither: with `chunk_size = 10`,
`overlap = 8` (satisfying the constraint) on the 29-character text below,
the first window's sentence cut ends at index 8, so the cursor is reset to
`8 - 8 = 0` on every iteration and the `while` loop never exits — for every
fuel budget `chunkLoop` runs out.  With `chunk_size = 5 ≤ overlap = 5`
there is no fail-fast validation either and the loop likewise never
terminates. -/
theorem chunk_nontermination :
    (8 < 10 ∧ ∀ fuel acc,
      chunkLoop "a. b. c. d. e. f. g. h. i. j.".data 10 8 fuel 0 acc
        = none) ∧
    (∀ fuel acc, chunkLoop "aaaaaaaaaaa".data 5 5 fuel 0 acc = none) ∧
    chunk_transcript "a. b. c. d. e. f. g. h. i. j." 10 8 = none ∧
    chunk_transcript "aaaaaaaaaaa" 5 5 = none := by
  have h1 := chunkLoop_cycle_at_zero "a. b. c. d. e. f. g. h. i. j.".data
    10 8 (by decide) (by decide)
  have h2 := chunkLoop_cycle_at_zero "aaaaaaaaaaa".data 5 5
    (by decide) (by decide)
  have e1 : chunk_transcript "a. b. c. d. e. f. g. h. i. j." 10 8
      = (chunkLoop "a. b. c. d. e. f. g. h. i. j.".data 10 8 30 0 []).map
          (fun ls => ls.map String.mk) := rfl
  have e2 : chunk_transcript "aaaaaaaaaaa" 5 5
      = (chunkLoop "aaaaaaaaaaa".data 5 5 12 0 []).map
          (fun ls => ls.map String.mk) := rfl
  refine ⟨⟨by decide, h1⟩, h2, ?_, ?_⟩
  · rw [e1, h1 30 []]; rfl
  · rw [e2, h2 12 []]; rfl

/-- C2.  Every match returned under a non-empty allow-list has its
`meeting_id` inside the allow-list: the
`WHERE e.meeting_id = ANY($2::text[])` filter (source lines 167-169)
restricts the candidate pool before ranking, so chunks of documents outside
the list are excluded even when they would score higher. -/
theorem search_respects_allow_list (model : Option (String → List ℤ))
    (dist : List ℤ → List ℤ → ℤ) (st : VSState) (q : String) (n : Nat)
    (a : String) (rest : List String) :
    ∀ r ∈ search_context model dist st q n (some (a :: rest)),
      r.meeting_id ∈ a :: rest := by
  intro r hr
  cases model with
  | none => simp [search_context] at hr
  | some enc =>
    simp only [search_context] at hr
    obtain ⟨rm, hrm, rfl⟩ := List.mem_map.1 hr
    have h1 : rm ∈ List.insertionSort (distLE dist (enc q))
        (searchPool st (some (a :: rest))) :=
      List.take_subset _ _ hrm
    have h2 : rm ∈ searchPool st (some (a :: rest)) :=
      (List.perm_insertionSort _ _).mem_iff.1 h1
    simp only [searchPool] at h2
    have h3 := List.of_mem_filter h2
    simpa [formatRow] using h3

/-- C2 witness: in the two-document store `stTie` with allow-list `["m1"]`,
the returned match is an `m1` chunk. -/
theorem search_respects_allow_list_witness :
    (⟨"y", "m1", "T1", "", 1, 0⟩ : SearchResult)
      ∈ search_context (some enc1) distDot stTie "q" 5 (some ["m1"]) ∧
    ("m1" : String) ∈ ["m1"] :=
  ⟨by decide,
    search_respects_allow_list (some enc1) distDot stTie "q" 5 "m1" []
      ⟨"y", "m1", "T1", "", 1, 0⟩ (by decide)⟩

/-- A refresh that reports zero chunks written leaves the store unchanged:
every zero-returning path either returns before touching the database or
rolls its transaction back. -/
lemma store_zero (enc : String → List ℤ) (txFail : Bool) (st : VSState)
    (mid : String) (ts : List String) (st' : VSState)
    (h : store_meeting_embeddings (some enc) txFail st mid ts
      = some (0, st')) : st' = st := by
  unfold store_meeting_embeddings at h
  by_cases h1 : trimChars (fullTextOf ts).data = []
  · simp only [h1, if_true, Option.some.injEq, Prod.mk.injEq] at h
    exact h.2.symm
  · simp only [h1, if_false] at h
    cases hct : chunk_transcript (fullTextOf ts) 500 100 with
    | none => rw [hct] at h; exact absurd h (by simp)
    | some chunks =>
      rw [hct] at h
      by_cases h2 : chunks = []
      · simp only [h2, if_true, Option.some.injEq, Prod.mk.injEq] at h
        exact h.2.symm
      · simp only [h2, if_false, Option.some.injEq, Prod.mk.injEq] at h
        cases txFail with
        | false =>
          exfalso
          have := h.1
          simp at this
          exact h2 this
        | true =>
          rw [← h.2]
          rfl

/-- C4.  Refresh is all-or-nothing: the `DELETE` and every `INSERT` run
inside one transaction (source lines 101-117), so on any mid-write failure
the transaction rolls back and the prior chunk set is intact; on success
the table is exactly the committed delete-then-insert; and a document that
previously had chunks never ends up with zero chunks (the empty-input paths
return before touching storage). -/
theorem refresh_all_or_nothing (enc : String → List ℤ) (txFail : Bool)
    (st : VSState) (mid : String) (ts : List String) (n : Nat)
    (st' : VSState)
    (h : store_meeting_embeddings (some enc) txFail st mid ts
      = some (n, st')) :
    (txFail = true → st' = st) ∧
    (st' = st ∨ ∃ records,
      st'.embeddings
        = runTransaction st.embeddings (refreshOps mid records) true ∧
      st'.meetings = st.meetings) ∧
    (rowsFor mid st.embeddings ≠ [] → rowsFor mid st'.embeddings ≠ []) := by
  rcases Nat.eq_zero_or_pos n with hn | hn
  · subst hn
    have hst := store_zero enc txFail st mid ts st' h
    subst hst
    exact ⟨fun _ => rfl, Or.inl rfl, fun hne => hne⟩
  · obtain ⟨htx, chunks, hct, hne, hlen, hemb, hmeet⟩ :=
      store_success enc txFail st mid ts n st' h hn
    subst htx
    have hrows : rowsFor mid st'.embeddings = mkRecords enc mid chunks := by
      rw [hemb, rowsFor_append, rowsFor_filter_ne, rowsFor_mkRecords]
      simp
    refine ⟨fun hc => absurd hc (by simp), Or.inr ⟨mkRecords enc mid chunks,
      ?_, hmeet⟩, fun _ => ?_⟩
    · rw [hemb, runTransaction_commit]
    · rw [hrows]
      intro hnil
      have := congrArg List.length hnil
      rw [mkRecords_length] at this
      exact hne (List.eq_nil_of_length_eq_zero this)

/-- C4 witness: a refresh of `m1` that fails mid-write (`txFail = true`)
returns 0 and leaves the prior chunk set of `m1` intact and non-empty. -/
theorem refresh_all_or_nothing_witness :
    store_meeting_embeddings (some enc1) true stA "m1" ["xy"]
      = some (0, stA) ∧
    rowsFor "m1" stA.embeddings ≠ [] :=
  ⟨by decide,
    (refresh_all_or_nothing enc1 true stA "m1" ["xy"] 0 stA (by decide)).2.2
      (by decide)⟩

/-- C8.  After a successful refresh that wrote `n > 0` chunks, the stored
rows for the document carry `chunk_index` values exactly `0 .. n-1` in
order (`enumerate` at source line 107), and their contents are the derived
chunks in input order; this is the state any subsequent search reads until
the next refresh. -/
theorem chunk_indices_contiguous (enc : String → List ℤ) (st : VSState)
    (mid : String) (ts : List String) (n : Nat) (st' : VSState)
    (h : store_meeting_embeddings (some enc) false st mid ts
      = some (n, st')) (hn : 0 < n) :
    (rowsFor mid st'.embeddings).map ChunkRow.chunk_index = List.range n ∧
    ∃ chunks, chunk_transcript (fullTextOf ts) 500 100 = some chunks ∧
      (rowsFor mid st'.embeddings).map ChunkRow.content = chunks := by
  obtain ⟨-, chunks, hct, -, hlen, hemb, -⟩ :=
    store_success enc false st mid ts n st' h hn
  have hrows : rowsFor mid st'.embeddings = mkRecords enc mid chunks := by
    rw [hemb, rowsFor_append, rowsFor_filter_ne, rowsFor_mkRecords]
    simp
  refine ⟨?_, chunks, hct, ?_⟩
  · rw [hrows, mkRecords_map_index, hlen]
  · rw [hrows, mkRecords_map_content]

/-- C8 witness: the refresh of `m1` with `"hello world"` stores indices
`[0]` and contents equal to the derived chunk list. -/
theorem chunk_indices_contiguous_witness :
    (rowsFor "m1" stA.embeddings).map ChunkRow.chunk_index = List.range 1 ∧
    ∃ chunks, chunk_transcript (fullTextOf ["hello world"]) 500 100
        = some chunks ∧
      (rowsFor "m1" stA.embeddings).map ChunkRow.content = chunks :=
  chunk_indices_contiguous enc1 ⟨[], []⟩ "m1" ["hello world"] 1 stA
    (by decide) (by decide)

/-- C5.  The claim states that ties in similarity are broken by document
identifier then chunk index.  The SQL `ORDER BY e.embedding <=> $1`
(source line 171) has no secondary sort key, so ties keep storage order:
in `stTie` the chunks of `m2` and `m1` (stored in that order) are both at
distance 0 from the query vector, and the result lists `m2` before `m1`
with equal similarity 1 — not the `m1`-first order the claimed document-id
tie-break would require. -/
theorem search_tie_order_cex :
    (search_context (some enc1) distDot stTie "q" 5 none).map
      (fun r => (r.meeting_id, r.similarity)) = [("m2", 1), ("m1", 1)] := by
  decide

/-- C5 (amended).  For every query and limit, search returns at most
`limit` matches sorted by similarity descending, where each match's
similarity is 1 minus the distance between the query vector and the
matched chunk's embedding (the pgvector cosine distance); a stored chunk
at distance 0 from the query vector — in particular one whose embedding is
identical to it — attains similarity 1.0 and ranks first when all
distances are non-negative.  Ties in similarity are **not** broken by
document identifier and chunk index: their relative order follows storage
order and the claimed determinism is not provided. -/
theorem search_ranking (enc : String → List ℤ) (dist : List ℤ → List ℤ → ℤ)
    (st : VSState) (q : String) (n : Nat) (allowed : Option (List String)) :
    (search_context (some enc) dist st q n allowed).length ≤ n ∧
    (search_context (some enc) dist st q n allowed).Pairwise
      (fun x y => y.similarity ≤ x.similarity) ∧
    (∀ r ∈ search_context (some enc) dist st q n allowed,
      ∃ rm ∈ searchPool st allowed,
        r.similarity = 1 - dist (enc q) rm.1.embedding ∧
        r.meeting_id = rm.1.meeting_id ∧
        r.chunk_index = rm.1.chunk_index) ∧
    (∀ rm0 ∈ searchPool st allowed, dist (enc q) rm0.1.embedding = 0 →
      (∀ rm ∈ searchPool st allowed, 0 ≤ dist (enc q) rm.1.embedding) →
      1 ≤ n →
      ∃ r, (search_context (some enc) dist st q n allowed).head? = some r ∧
        r.similarity = 1) := by
  have hsc : search_context (some enc) dist st q n allowed
      = ((List.insertionSort (distLE dist (enc q))
          (searchPool st allowed)).take n).map (formatRow dist (enc q)) :=
    rfl
  have hsorted : (List.insertionSort (distLE dist (enc q))
      (searchPool st allowed)).Pairwise (distLE dist (enc q)) :=
    List.sorted_insertionSort _ _
  refine ⟨?_, ?_, ?_, ?_⟩
  · rw [hsc]
    simp only [List.length_map, List.length_take]
    exact Nat.min_le_left _ _
  · rw [hsc]
    refine List.pairwise_map.2 ?_
    have hp : ((List.insertionSort (distLE dist (enc q))
        (searchPool st allowed)).take n).Pairwise (distLE dist (enc q)) :=
      List.Pairwise.sublist (List.take_sublist n _) hsorted
    refine hp.imp ?_
    intro a b hab
    unfold distLE at hab
    simp only [formatRow]
    exact sub_le_sub_left hab 1
  · intro r hr
    rw [hsc] at hr
    obtain ⟨rm, hrm, rfl⟩ := List.mem_map.1 hr
    exact ⟨rm, (List.perm_insertionSort _ _).mem_iff.1
      (List.take_subset _ _ hrm), rfl, rfl, rfl⟩
  · intro rm0 h0 hd0 hnn hn1
    have hmem : rm0 ∈ List.insertionSort (distLE dist (enc q))
        (searchPool st allowed) :=
      (List.perm_insertionSort _ _).mem_iff.2 h0
    cases hs : List.insertionSort (distLE dist (enc q))
        (searchPool st allowed) with
    | nil => rw [hs] at hmem; simp at hmem
    | cons s0 tl =>
      rw [hs] at hmem hsorted
      have hs0pool : s0 ∈ searchPool st allowed := by
        have : s0 ∈ List.insertionSort (distLE dist (enc q))
            (searchPool st allowed) := by
          rw [hs]; exact List.mem_cons_self s0 tl
        exact (List.perm_insertionSort _ _).mem_iff.1 this
      have hds0 : dist (enc q) s0.1.embedding = 0 := by
        have hge : (0 : ℤ) ≤ dist (enc q) s0.1.embedding := hnn s0 hs0pool
        rcases List.mem_cons.1 hmem with heq | htl
        · rw [← heq]; exact hd0
        · have hle := List.rel_of_pairwise_cons hsorted htl
          unfold distLE at hle
          rw [hd0] at hle
          omega
      refine ⟨formatRow dist (enc q) s0, ?_, ?_⟩
      · rw [hsc, hs]
        cases n with
        | zero => omega
        | succ m => simp
      · simp [formatRow, hds0]

/-- C5 witness: in `stHit` the chunk whose embedding equals the query
vector heads the result with similarity 1. -/
theorem search_ranking_witness :
    ∃ r, (search_context (some enc1) distDot stHit "q" 5 none).head?
        = some r ∧ r.similarity = 1 :=
  (search_ranking enc1 distDot stHit "q" 5 none).2.2.2
    (ChunkRow.mk "m1" 0 "p" [1], Meeting.mk "m1" "T1" none)
    (by decide) (by decide) (by decide) (by decide)
